import Mathlib

/-!
Shallow embedding of the hex-coordinate core of the engine
(`src/engine/src/position.rs`): the `Position` type, the direction and
translation algebra on the odd-r horizontal hex layout, and the move-notation
resolver `Position.from_string`.

The `Direction` enumeration, the `Board` placement registry, the `Piece`
reference and the `GameError` type live in engine files outside the visible
source; where an operation of theirs is needed it is modelled from the spec
and its doc comment says so.  Rust `i32` coordinates are embedded as
unbounded `Int` (the spec's data model is "an ordered pair of signed
integers"); `i32::rem_euclid(2)` agrees with Lean's `Int.emod` by `2`.
The panic branch of `Position::direction` is embedded as `none`, and the
fallible `from_string` returns `Except GameError Position`.
-/

/-- The six hex-neighbor directions.  The enumeration itself is declared in
`direction.rs` (outside the visible source); its six variants and their
meaning are fixed by the match arms of `Position::direction` and
`Position::to` in `position.rs`. -/
inductive Direction where
  | NW
  | NE
  | E
  | SE
  | SW
  | W
  deriving DecidableEq, Repr

/-- Modelled from the spec: `Direction::adjacent_directions` lives in
`direction.rs`, which is not part of the visible source.  Per §4.2 it
"returns the two directions immediately preceding and following `d` in the
fixed six-cycle", the ring being NW→NE→E→SE→SW→W→NW (§3). -/
def Direction.adjacent_directions : Direction → Direction × Direction
  | .NW => (.W, .NE)
  | .NE => (.NW, .E)
  | .E => (.NE, .SE)
  | .SE => (.E, .SW)
  | .SW => (.SE, .W)
  | .W => (.SW, .NW)

/-- `Position` from `position.rs`: a pair of signed integers naming a cell of
the odd-r horizontal hex layout. -/
@[ext]
structure Position where
  x : Int
  y : Int
  deriving DecidableEq, Repr

/-- `Position::to` from `position.rs`: the neighbor of `self` in the given
direction, via the two parity-selected offset tables ("odd-r horizontal",
odd rows offset to the right). -/
def Position.to (self : Position) (direction : Direction) : Position :=
  if self.y % 2 = 0 then
    match direction with
    | .NW => ⟨self.x - 1, self.y - 1⟩
    | .NE => ⟨self.x, self.y - 1⟩
    | .E => ⟨self.x + 1, self.y⟩
    | .SE => ⟨self.x, self.y + 1⟩
    | .SW => ⟨self.x - 1, self.y + 1⟩
    | .W => ⟨self.x - 1, self.y⟩
  else
    match direction with
    | .NW => ⟨self.x, self.y - 1⟩
    | .NE => ⟨self.x + 1, self.y - 1⟩
    | .E => ⟨self.x + 1, self.y⟩
    | .SE => ⟨self.x + 1, self.y + 1⟩
    | .SW => ⟨self.x, self.y + 1⟩
    | .W => ⟨self.x - 1, self.y⟩

/-- `Position::direction` from `position.rs`: the named direction from `self`
to an adjacent cell, matching the delta `(to.x - self.x, to.y - self.y)`
against the parity-appropriate offset table.  The source panics on any other
delta (a contract violation, not user input); the panic is embedded as
`none`. -/
def Position.direction (self other : Position) : Option Direction :=
  if self.y % 2 = 0 then
    if other.x - self.x = -1 ∧ other.y - self.y = -1 then some .NW
    else if other.x - self.x = 0 ∧ other.y - self.y = -1 then some .NE
    else if other.x - self.x = 1 ∧ other.y - self.y = 0 then some .E
    else if other.x - self.x = 0 ∧ other.y - self.y = 1 then some .SE
    else if other.x - self.x = -1 ∧ other.y - self.y = 1 then some .SW
    else if other.x - self.x = -1 ∧ other.y - self.y = 0 then some .W
    else none
  else
    if other.x - self.x = 0 ∧ other.y - self.y = -1 then some .NW
    else if other.x - self.x = 1 ∧ other.y - self.y = -1 then some .NE
    else if other.x - self.x = 1 ∧ other.y - self.y = 0 then some .E
    else if other.x - self.x = 1 ∧ other.y - self.y = 1 then some .SE
    else if other.x - self.x = 0 ∧ other.y - self.y = 1 then some .SW
    else if other.x - self.x = -1 ∧ other.y - self.y = 0 then some .W
    else none

/-- `Position::common_adjacent_positions` from `position.rs`: the two cells
flanking the edge from `self` to `other`, computed as `self.to` of the two
ring-adjacent directions of `direction(self, other)`.  Since the underlying
`direction` call can panic (embedded as `none`), the embedding is
`Option`-valued. -/
def Position.common_adjacent_positions (self other : Position) :
    Option (Position × Position) :=
  (self.direction other).map fun d =>
    (self.to d.adjacent_directions.1, self.to d.adjacent_directions.2)

/-- `b` is one of the six hex neighbors of `a`. -/
def Position.isNeighbor (a b : Position) : Prop :=
  ∃ d : Direction, a.to d = b

/-- The direction opposite in the ring (proof helper). -/
def oppositeDir : Direction → Direction
  | .NW => .SE
  | .NE => .SW
  | .E => .W
  | .SE => .NW
  | .SW => .NE
  | .W => .E

/-- Character class of the three directional symbols (dash, slash,
backslash) of the grammar in `position.rs`. -/
def symChar (c : Char) : Bool :=
  c = '-' || c = '/' || c = '\\'

/-- Character class `[wb]` of the piece-color letters. -/
def colorChar (c : Char) : Bool :=
  c = 'w' || c = 'b'

/-- Character class `[ABGMLPSQ]` of the piece-type letters. -/
def typeChar (c : Char) : Bool :=
  c = 'A' || c = 'B' || c = 'G' || c = 'M' || c = 'L' || c = 'P' || c = 'S' ||
    c = 'Q'

/-- Modelled from the spec: the `Piece` reference lives in `piece.rs`, not in
the visible source.  Per §3 it is "color (two-valued) + type letter (one of a
fixed small alphabet) + optional numeral", equal iff all three components
match, and the core treats it purely as an opaque lookup key. -/
structure Piece where
  color : Char
  typ : Char
  num : Option Char
  deriving DecidableEq, Repr

/-- Modelled from the spec: the `Board` placement registry lives in
`board.rs`, not in the visible source.  Per §3/§6 the core consumes exactly
one capability: "lookup current position of a placed piece, or indicate
not-placed", so it is embedded as a mapping from piece reference to
`Option Position`. -/
abbrev Board := Piece → Option Position

/-- `GameError` from `game_error.rs` (outside the visible source); the two
variants and their fields are fixed by their construction sites in
`position.rs`: `ParsingError { found, typ }` and
`InvalidDirection { direction }`.  Strings are embedded as `List Char`. -/
inductive GameError where
  | ParsingError (found : List Char) (typ : List Char)
  | InvalidDirection (direction : List Char)
  deriving DecidableEq, Repr

/-- The fixed target-kind tag `"position"` of the parsing error. -/
def positionTag : List Char :=
  ['p', 'o', 's', 'i', 't', 'i', 'o', 'n']

/-- A capture of the tokenizer: optional leading symbol, piece code,
optional trailing symbol (the groups `cap[1]`, `cap[2]`, `cap[3]`). -/
abbrev Token := Option Char × Piece × Option Char

/-- Match the piece-code group `[wb][ABGMLPSQ]\d?` at the head of the list
(`\d?` greedy); returns the piece and the rest of the input. -/
def pieceAt : List Char → Option (Piece × List Char)
  | c1 :: c2 :: rest =>
    if colorChar c1 && typeChar c2 then
      match rest with
      | d :: rest2 =>
        if d.isDigit then some (⟨c1, c2, some d⟩, rest2)
        else some (⟨c1, c2, none⟩, rest)
      | [] => some (⟨c1, c2, none⟩, [])
    else none
  | _ => none

/-- Greedy capture of the optional trailing symbol group after the piece
code, completing a token. -/
def capSuffix (pre : Option Char) (pc : Piece) : List Char → Token
  | s :: _ => if symChar s then (pre, pc, some s) else (pre, pc, none)
  | [] => (pre, pc, none)

/-- Try the whole source pattern — optional symbol group, piece-code group
`[wb][ABGMLPSQ]\d?`, optional symbol group — at the head of the
list, with the leftmost-first greedy semantics of the source's regex
engine: the optional groups prefer to capture one character.  (If the head is
a directional symbol but no piece code follows, backtracking to an empty
first group cannot help, since the symbol itself is not a color letter.) -/
def matchAt : List Char → Option Token
  | [] => none
  | c :: rest =>
    if symChar c then
      match pieceAt rest with
      | some (pc, rest2) => some (capSuffix (some c) pc rest2)
      | none => none
    else
      match pieceAt (c :: rest) with
      | some (pc, rest2) => some (capSuffix none pc rest2)
      | none => none

/-- `RE.captures(s)` of the source: scan left to right for the first offset
where the pattern matches, i.e. the leftmost match. -/
def tokenize : List Char → Option Token
  | [] => none
  | c :: rest =>
    match matchAt (c :: rest) with
    | some t => some t
    | none => tokenize rest

/-- The `cap[1]` arm of `Position::from_string`: a leading symbol moves the
anchor `\` → NW, `-` → W, `/` → SW; any other symbol is the defensive
`InvalidDirection` error. -/
def applyPre (c : Char) (p : Position) : Except GameError Position :=
  if c = '\\' then .ok (p.to .NW)
  else if c = '-' then .ok (p.to .W)
  else if c = '/' then .ok (p.to .SW)
  else .error (.InvalidDirection [c])

/-- The `cap[3]` arm of `Position::from_string`: a trailing symbol moves the
anchor `/` → NE, `-` → E, `\` → SE; any other symbol is the defensive
`InvalidDirection` error. -/
def applySuf (c : Char) (p : Position) : Except GameError Position :=
  if c = '/' then .ok (p.to .NE)
  else if c = '-' then .ok (p.to .E)
  else if c = '\\' then .ok (p.to .SE)
  else .error (.InvalidDirection [c])

/-- The body of `Position::from_string` after a successful capture: look the
piece up in the registry (absence falls through to the trailing
`ParsingError`, like a failed capture), then apply the leading symbol, then
the trailing symbol. -/
def resolveToken (s : List Char) (board : Board) :
    Token → Except GameError Position
  | (pre, pc, suf) =>
    match board pc with
    | some pos =>
      match (match pre with | none => Except.ok pos | some c => applyPre c pos) with
      | .error e => .error e
      | .ok pos1 =>
        match (match suf with
               | none => Except.ok pos1
               | some c => applySuf c pos1) with
        | .error e => .error e
        | .ok pos2 => .ok pos2
    | none => .error (.ParsingError s positionTag)

/-- `Position::from_string` from `position.rs`: a token starting with `.`
resolves to the origin at once; otherwise the first regex match is resolved
against the registry, and a failed capture or an unplaced anchor ends in the
trailing `ParsingError { found: s, typ: "position" }`. -/
def Position.from_string (s : List Char) (board : Board) :
    Except GameError Position :=
  if s.head? = some '.' then .ok ⟨0, 0⟩
  else
    match tokenize s with
    | some t => resolveToken s board t
    | none => .error (.ParsingError s positionTag)

/-- Discriminator: is this result the `InvalidDirection` error? -/
def isInvalidDirectionError : Except GameError Position → Bool
  | .error (.InvalidDirection _) => true
  | _ => false

/-- Written from the spec's words for C4: the leading-symbol step,
`\` → NW, `-` → W, `/` → SW, identity when absent. -/
def preStep (o : Option Char) (p : Position) : Position :=
  match o with
  | some c =>
    if c = '\\' then p.to .NW
    else if c = '-' then p.to .W
    else if c = '/' then p.to .SW
    else p
  | none => p

/-- Written from the spec's words for C4: the trailing-symbol step,
`/` → NE, `-` → E, `\` → SE, identity when absent, applied after the
leading step. -/
def sufStep (o : Option Char) (p : Position) : Position :=
  match o with
  | some c =>
    if c = '/' then p.to .NE
    else if c = '-' then p.to .E
    else if c = '\\' then p.to .SE
    else p
  | none => p

/-- The notation token spelt out as characters: optional leading symbol,
color letter, type letter, optional digit, optional trailing symbol. -/
def tokenChars (pre : Option Char) (pc : Piece) (suf : Option Char) :
    List Char :=
  pre.toList ++ [pc.color, pc.typ] ++ pc.num.toList ++ suf.toList

/-- An optional character that, when present, is a directional symbol. -/
def optSym : Option Char → Bool
  | none => true
  | some c => symChar c

/-- An optional character that, when present, is a digit. -/
def optDigit : Option Char → Bool
  | none => true
  | some c => c.isDigit

/-- A well-formed piece code: a color letter, a type letter, an optional
digit. -/
def pieceWf (pc : Piece) : Bool :=
  colorChar pc.color && typeChar pc.typ && optDigit pc.num

/-- A token whose optional symbol slots hold directional symbols only. -/
def tokenWf (t : Token) : Bool :=
  optSym t.1 && optSym t.2.2

/-- Even-row neighbor offsets, one per direction, read off the even-row match
arms of `Position::to`. -/
def evenOffset : Direction → Int × Int
  | .NW => (-1, -1)
  | .NE => (0, -1)
  | .E => (1, 0)
  | .SE => (0, 1)
  | .SW => (-1, 1)
  | .W => (-1, 0)

/-- Odd-row neighbor offsets, one per direction, read off the odd-row match
arms of `Position::to`. -/
def oddOffset : Direction → Int × Int
  | .NW => (0, -1)
  | .NE => (1, -1)
  | .E => (1, 0)
  | .SE => (1, 1)
  | .SW => (0, 1)
  | .W => (-1, 0)

theorem Position.x_mk (a b : Int) : (⟨a, b⟩ : Position).x = a := rfl

theorem Position.y_mk (a b : Int) : (⟨a, b⟩ : Position).y = b := rfl

/-- Helper: `to` in offset-table form. -/
theorem Position.to_mk (x y : Int) (d : Direction) :
    Position.to ⟨x, y⟩ d =
      ⟨x + (if y % 2 = 0 then evenOffset d else oddOffset d).1,
        y + (if y % 2 = 0 then evenOffset d else oddOffset d).2⟩ := by
  rcases Int.emod_two_eq_zero_or_one y with hy | hy <;> cases d <;>
    simp only [Position.to, Position.x_mk, Position.y_mk, evenOffset,
      oddOffset, hy, reduceIte, Int.reduceEq, Position.mk.injEq, true_and,
      and_true] <;>
    first | trivial | omega

/-- Helper: `direction` on explicit coordinates, by unfolding. -/
theorem Position.direction_mk (x y a b : Int) :
    Position.direction ⟨x, y⟩ ⟨a, b⟩ =
      (if y % 2 = 0 then
        if a - x = -1 ∧ b - y = -1 then some .NW
        else if a - x = 0 ∧ b - y = -1 then some .NE
        else if a - x = 1 ∧ b - y = 0 then some .E
        else if a - x = 0 ∧ b - y = 1 then some .SE
        else if a - x = -1 ∧ b - y = 1 then some .SW
        else if a - x = -1 ∧ b - y = 0 then some .W
        else none
      else
        if a - x = 0 ∧ b - y = -1 then some .NW
        else if a - x = 1 ∧ b - y = -1 then some .NE
        else if a - x = 1 ∧ b - y = 0 then some .E
        else if a - x = 1 ∧ b - y = 1 then some .SE
        else if a - x = 0 ∧ b - y = 1 then some .SW
        else if a - x = -1 ∧ b - y = 0 then some .W
        else none) := rfl

set_option maxHeartbeats 1600000 in
/-- Helper: the round trip `direction(p, to(p, d)) = d`. -/
theorem Position.direction_to_aux (p : Position) (d : Direction) :
    p.direction (p.to d) = some d := by
  obtain ⟨x, y⟩ := p
  rw [Position.to_mk, Position.direction_mk]
  cases d <;>
    simp only [evenOffset, oddOffset] <;>
    split_ifs <;>
    first | rfl | omega

/-- Helper: `direction` is sound — whenever it answers `some d`, the target
really is the `d`-neighbor of the source. -/
theorem Position.direction_eq_some_imp (p q : Position) (d : Direction)
    (h : p.direction q = some d) : p.to d = q := by
  obtain ⟨x, y⟩ := p
  obtain ⟨a, b⟩ := q
  rw [Position.direction_mk] at h
  rw [Position.to_mk]
  split_ifs at h <;>
    first
      | exact Option.noConfusion h
      | (have hd := Option.some.inj h
         subst hd
         simp only [Position.mk.injEq, evenOffset, oddOffset]
         split_ifs <;> omega)

/-- Helper: stepping in a direction and then in the opposite direction
returns to the start. -/
theorem Position.to_oppositeDir (p : Position) (d : Direction) :
    (p.to d).to (oppositeDir d) = p := by
  obtain ⟨x, y⟩ := p
  simp only [Position.to_mk]
  cases d <;>
    simp only [oppositeDir, evenOffset, oddOffset, Position.mk.injEq] <;>
    split_ifs <;>
    omega

/-- Helper: a cell reachable by one of the six steps is a neighbor. -/
theorem Position.isNeighbor_of_or (q r : Position)
    (h : q.to .NW = r ∨ q.to .NE = r ∨ q.to .E = r ∨ q.to .SE = r ∨
      q.to .SW = r ∨ q.to .W = r) : q.isNeighbor r := by
  rcases h with h | h | h | h | h | h <;> exact ⟨_, h⟩

set_option maxHeartbeats 12000000 in
/-- Helper (completeness of the sliding gate): a cell that is a neighbor of
both `p` and `p.to d` is one of the two cells reached via the ring-adjacent
directions of `d`. -/
theorem Position.common_complete_aux (p : Position) (d d1 d2 : Direction)
    (h : (p.to d).to d2 = p.to d1) :
    p.to d1 = p.to d.adjacent_directions.1 ∨
      p.to d1 = p.to d.adjacent_directions.2 := by
  obtain ⟨x, y⟩ := p
  simp only [Position.to_mk] at h ⊢
  cases d <;> cases d1 <;> cases d2 <;>
    simp only [Direction.adjacent_directions, evenOffset, oddOffset,
      Position.mk.injEq, true_and, and_true, true_or, or_true] at h ⊢ <;>
    split_ifs at h ⊢ <;>
    first | trivial | omega

set_option maxHeartbeats 1600000 in
/-- Helper (soundness of the sliding gate): the two cells reached from `p`
via the ring-adjacent directions of `d` are neighbors of `p.to d`. -/
theorem Position.common_sound_aux (p : Position) (d : Direction) :
    (p.to d).isNeighbor (p.to d.adjacent_directions.1) ∧
      (p.to d).isNeighbor (p.to d.adjacent_directions.2) := by
  obtain ⟨x, y⟩ := p
  constructor <;>
    apply Position.isNeighbor_of_or <;>
    simp only [Position.to_mk] <;>
    cases d <;>
    simp only [Direction.adjacent_directions, evenOffset, oddOffset,
      Position.mk.injEq, true_and, and_true, true_or, or_true] <;>
    split_ifs <;>
    first | trivial | omega

/-- C1: for every Position `p` and every Direction `d`,
`direction(p, to(p, d)) = d` (the panic branch is not taken): translating one
step in direction `d` and asking for the direction from `p` to the result
returns `d`, on even and odd rows alike, including negative `y`. -/
theorem direction_to_round_trip (p : Position) (d : Direction) :
    p.direction (p.to d) = some d :=
  Position.direction_to_aux p d

/-- C2: for every adjacent pair — `p` and `to(p, d)` — the engine's
`common_adjacent_positions` answers exactly the pair
`(to(p, adj d .1), to(p, adj d .2))` built from the two ring-adjacent
directions of `d = direction(p, to(p, d))`, and those two cells are precisely
the common hex-neighbors of the two endpoints. -/
theorem common_adjacent_positions_spec (p : Position) (d : Direction) :
    p.common_adjacent_positions (p.to d) =
        some (p.to d.adjacent_directions.1, p.to d.adjacent_directions.2) ∧
      ∀ c : Position, (p.isNeighbor c ∧ (p.to d).isNeighbor c) ↔
        (c = p.to d.adjacent_directions.1 ∨
          c = p.to d.adjacent_directions.2) := by
  constructor
  · unfold Position.common_adjacent_positions
    rw [Position.direction_to_aux]
    rfl
  · intro c
    constructor
    · rintro ⟨⟨d1, rfl⟩, ⟨d2, h2⟩⟩
      exact Position.common_complete_aux p d d1 d2 h2
    · rintro (rfl | rfl)
      · exact ⟨⟨_, rfl⟩, (Position.common_sound_aux p d).1⟩
      · exact ⟨⟨_, rfl⟩, (Position.common_sound_aux p d).2⟩

/-- C3: `direction(from, to)` answers a Direction exactly when `to` is one of
the six parity-appropriate neighbors of `from`; on every other pair it takes
the panic branch (embedded as `none`) rather than returning a recoverable
value, so the panic branch is unreachable under the adjacency
precondition. -/
theorem direction_defined_iff_adjacent (p q : Position) :
    (p.direction q).isSome = true ↔ ∃ d : Direction, p.to d = q := by
  constructor
  · intro h
    obtain ⟨d, hd⟩ := Option.isSome_iff_exists.mp h
    exact ⟨d, Position.direction_eq_some_imp p q d hd⟩
  · rintro ⟨d, rfl⟩
    rw [Position.direction_to_aux]
    rfl

/-- C5: double round-trip — for every `p` and `d`, with `q = to(p, d)`,
`direction(q, p)` is defined, and stepping from `q` in that direction returns
to `p`, across row-parity changes. -/
theorem to_direction_double_round_trip (p : Position) (d : Direction) :
    ∃ d' : Direction, (p.to d).direction p = some d' ∧ (p.to d).to d' = p := by
  refine ⟨oppositeDir d, ?_, Position.to_oppositeDir p d⟩
  have h := Position.direction_to_aux (p.to d) (oppositeDir d)
  rwa [Position.to_oppositeDir] at h

/-- C9: parity consistency — on any fixed position the six directional
offsets are pairwise distinct: `d ↦ to(p, d)` is injective, so the six ring
directions get six different cells with no duplicates, on either parity. -/
theorem to_injective_on_directions (p : Position) (d1 d2 : Direction)
    (h : p.to d1 = p.to d2) : d1 = d2 := by
  obtain ⟨x, y⟩ := p
  simp only [Position.to_mk] at h
  cases d1 <;> cases d2 <;>
    first
      | rfl
      | (simp only [evenOffset, oddOffset, Position.mk.injEq] at h
         split_ifs at h <;> omega)

/-- Witness for C9 at a concrete input. -/
theorem to_injective_on_directions_witness :
    Position.to ⟨0, 0⟩ .NW = Position.to ⟨0, 0⟩ .NW ∧
      (Direction.NW : Direction) = .NW :=
  ⟨rfl, to_injective_on_directions ⟨0, 0⟩ .NW .NW rfl⟩

/-- Helper: a directional symbol is not a digit. -/
theorem sym_not_digit (c : Char) (h : symChar c = true) : c.isDigit = false := by
  simp only [symChar, Bool.or_eq_true, decide_eq_true_eq] at h
  rcases h with (h | h) | h <;> subst h <;> decide

/-- Helper: a color letter is not a directional symbol. -/
theorem color_not_sym (c : Char) (h : colorChar c = true) : symChar c = false := by
  simp only [colorChar, Bool.or_eq_true, decide_eq_true_eq] at h
  rcases h with h | h <;> subst h <;> decide

/-- Helper: a directional symbol is not the origin dot. -/
theorem sym_ne_dot (c : Char) (h : symChar c = true) : c ≠ '.' := by
  simp only [symChar, Bool.or_eq_true, decide_eq_true_eq] at h
  rcases h with (h | h) | h <;> subst h <;> decide

/-- Helper: a color letter is not the origin dot. -/
theorem color_ne_dot (c : Char) (h : colorChar c = true) : c ≠ '.' := by
  simp only [colorChar, Bool.or_eq_true, decide_eq_true_eq] at h
  rcases h with h | h <;> subst h <;> decide

/-- Helper: on a directional symbol the leading-symbol arm cannot error, and
it agrees with the spec-side `preStep`. -/
theorem applyPre_sym (c : Char) (p : Position) (h : symChar c = true) :
    applyPre c p = .ok (preStep (some c) p) := by
  simp only [symChar, Bool.or_eq_true, decide_eq_true_eq] at h
  rcases h with (h | h) | h <;> subst h <;> rfl

/-- Helper: on a directional symbol the trailing-symbol arm cannot error, and
it agrees with the spec-side `sufStep`. -/
theorem applySuf_sym (c : Char) (p : Position) (h : symChar c = true) :
    applySuf c p = .ok (sufStep (some c) p) := by
  simp only [symChar, Bool.or_eq_true, decide_eq_true_eq] at h
  rcases h with (h | h) | h <;> subst h <;> rfl

/-- Helper: any token produced by a single pattern attempt has directional
symbols (or nothing) in its two optional slots. -/
theorem matchAt_wf (l : List Char) (t : Token) (h : matchAt l = some t) :
    tokenWf t = true := by
  unfold matchAt at h
  split at h
  · exact Option.noConfusion h
  · rename_i c rest
    split_ifs at h with hc
    · split at h
      · cases Option.some.inj h
        rename_i pc rest2 heq
        unfold capSuffix
        split
        · split_ifs with hs <;> simp [tokenWf, optSym, hc, hs]
        · simp [tokenWf, optSym, hc]
      · exact Option.noConfusion h
    · split at h
      · cases Option.some.inj h
        rename_i pc rest2 heq
        unfold capSuffix
        split
        · split_ifs with hs <;> simp [tokenWf, optSym, hs]
        · simp [tokenWf, optSym]
      · exact Option.noConfusion h

/-- Helper: any token the tokenizer returns has directional symbols (or
nothing) in its two optional slots. -/
theorem tokenize_wf :
    ∀ (l : List Char) (t : Token), tokenize l = some t → tokenWf t = true
  | [], _, h => by simp [tokenize] at h
  | c :: rest, t, h => by
    rw [tokenize] at h
    cases hm : matchAt (c :: rest) with
    | some t2 =>
      simp only [hm] at h
      cases Option.some.inj h
      exact matchAt_wf _ _ hm
    | none =>
      simp only [hm] at h
      exact tokenize_wf rest t h

/-- Helper: a resolved token with well-formed symbol slots never produces the
`InvalidDirection` error. -/
theorem resolveToken_not_invalid (s : List Char) (board : Board) (t : Token)
    (hwf : tokenWf t = true) :
    isInvalidDirectionError (resolveToken s board t) = false := by
  obtain ⟨pre, pc, suf⟩ := t
  simp only [tokenWf, Bool.and_eq_true] at hwf
  cases hb : board pc <;>
    cases pre <;> cases suf <;>
      simp_all [resolveToken, isInvalidDirectionError, optSym, applyPre_sym,
        applySuf_sym]

/-- Helper: the tokenizer recovers the three groups from a spelt-out
well-formed token. -/
theorem tokenize_tokenChars (pre : Option Char) (pc : Piece) (suf : Option Char)
    (hpre : optSym pre = true) (hpc : pieceWf pc = true)
    (hsuf : optSym suf = true) :
    tokenize (tokenChars pre pc suf) = some (pre, pc, suf) := by
  obtain ⟨col, ty, num⟩ := pc
  simp only [pieceWf, Bool.and_eq_true] at hpc
  obtain ⟨⟨hcol, hty⟩, hnum⟩ := hpc
  cases pre <;> cases num <;> cases suf <;>
    simp_all [tokenChars, tokenize, matchAt, pieceAt, capSuffix, optSym,
      optDigit, color_not_sym, sym_not_digit]

/-- Helper: resolving a token over a registry that places its piece applies
the leading step, then the trailing step. -/
theorem resolveToken_ok (s : List Char) (board : Board) (pre : Option Char)
    (pc : Piece) (suf : Option Char) (p : Position)
    (hpre : optSym pre = true) (hsuf : optSym suf = true)
    (hb : board pc = some p) :
    resolveToken s board (pre, pc, suf) = .ok (sufStep suf (preStep pre p)) := by
  cases pre <;> cases suf <;>
    simp_all [resolveToken, optSym, applyPre_sym, applySuf_sym, preStep,
      sufStep]

/-- Helper: a well-formed spelt-out token does not start with the origin
dot. -/
theorem tokenChars_ne_dot (pre : Option Char) (pc : Piece) (suf : Option Char)
    (hpre : optSym pre = true) (hcol : colorChar pc.color = true) :
    ¬(tokenChars pre pc suf).head? = some '.' := by
  cases pre with
  | none =>
    simp only [tokenChars, Option.toList, List.nil_append, List.cons_append,
      List.head?_cons, Option.some.injEq]
    intro h
    exact color_ne_dot pc.color hcol h
  | some a =>
    have ha : symChar a = true := by simpa [optSym] using hpre
    simp only [tokenChars, Option.toList, List.cons_append, List.head?_cons,
      Option.some.injEq]
    intro h
    exact sym_ne_dot a ha h

/-- Helper: leading characters that can start neither a piece code nor a
symbol group are skipped by the leftmost scan. -/
theorem tokenize_append_junk (u w : List Char)
    (hu : ∀ c ∈ u, colorChar c = false ∧ symChar c = false) :
    tokenize (u ++ w) = tokenize w := by
  induction u with
  | nil => rfl
  | cons c u2 ih =>
    obtain ⟨hc1, hc2⟩ := hu c (List.mem_cons_self c u2)
    have hu2 : ∀ c2 ∈ u2, colorChar c2 = false ∧ symChar c2 = false :=
      fun c2 hc => hu c2 (List.mem_cons_of_mem c hc)
    have hm : matchAt (c :: (u2 ++ w)) = none := by
      simp only [matchAt]
      rw [if_neg (by simp [hc2])]
      cases huw : u2 ++ w with
      | nil => simp [pieceAt]
      | cons c2 r => simp [pieceAt, hc1]
    rw [List.cons_append, tokenize, hm]
    exact ih hu2

/-- C4: in any registry placing the referenced piece at `p`, resolving a
spelt-out token — optional leading symbol, piece code, optional trailing
symbol — yields `p` with the leading symbol's direction applied via `to` and
then the trailing symbol's direction applied after it; the two steps compose,
and with neither symbol the result is exactly `p`. -/
theorem from_string_resolves_token (pre : Option Char) (pc : Piece)
    (suf : Option Char) (board : Board) (p : Position)
    (hpre : optSym pre = true) (hpc : pieceWf pc = true)
    (hsuf : optSym suf = true) (hb : board pc = some p) :
    Position.from_string (tokenChars pre pc suf) board =
      .ok (sufStep suf (preStep pre p)) := by
  have hcol : colorChar pc.color = true := by
    have h := hpc
    simp only [pieceWf, Bool.and_eq_true] at h
    exact h.1.1
  unfold Position.from_string
  rw [if_neg (tokenChars_ne_dot pre pc suf hpre hcol),
    tokenize_tokenChars pre pc suf hpre hpc hsuf]
  exact resolveToken_ok _ board pre pc suf p hpre hsuf hb

/-- Witness for C4: `wA1` placed at `(2,3)` and the bare token `wA1` (no
symbols) resolves to exactly `(2,3)`. -/
theorem from_string_resolves_token_witness :
    optSym none = true ∧ pieceWf ⟨'w', 'A', some '1'⟩ = true ∧
      (fun q : Piece =>
          if q = (⟨'w', 'A', some '1'⟩ : Piece) then some (⟨2, 3⟩ : Position)
          else none) ⟨'w', 'A', some '1'⟩ = some ⟨2, 3⟩ ∧
      Position.from_string (tokenChars none ⟨'w', 'A', some '1'⟩ none)
          (fun q : Piece =>
            if q = (⟨'w', 'A', some '1'⟩ : Piece) then some (⟨2, 3⟩ : Position)
            else none) =
        .ok ⟨2, 3⟩ :=
  ⟨rfl, by decide, by decide,
    from_string_resolves_token none ⟨'w', 'A', some '1'⟩ none _ ⟨2, 3⟩ rfl
      (by decide) rfl (by decide)⟩

/-- C6: every input beginning with the dot resolves to the origin `(0,0)`
at once, whatever the registry holds. -/
theorem from_string_dot_origin (s : List Char) (board : Board)
    (h : s.head? = some '.') : Position.from_string s board = .ok ⟨0, 0⟩ := by
  unfold Position.from_string
  rw [if_pos h]

/-- Witness for C6: the token consisting of a single dot, over an empty
registry. -/
theorem from_string_dot_origin_witness :
    (['.'] : List Char).head? = some '.' ∧
      Position.from_string ['.'] (fun _ => none) = .ok ⟨0, 0⟩ :=
  ⟨rfl, from_string_dot_origin ['.'] (fun _ => none) rfl⟩

/-- C7: when the input does not start with the dot and either fails to
tokenize or references a piece absent from the registry, `from_string`
returns the same parsing-error kind, carrying the original input and the
fixed tag `"position"` — the two failure causes are not distinguished. -/
theorem from_string_parsing_error (s : List Char) (board : Board)
    (hdot : ¬s.head? = some '.')
    (h : tokenize s = none ∨
      ∃ t : Token, tokenize s = some t ∧ board t.2.1 = none) :
    Position.from_string s board = .error (.ParsingError s positionTag) := by
  unfold Position.from_string
  rw [if_neg hdot]
  rcases h with h | ⟨t, ht, hb⟩
  · rw [h]
  · rw [ht]
    obtain ⟨pre, pc, suf⟩ := t
    have hb2 : board pc = none := hb
    show resolveToken s board (pre, pc, suf) = _
    simp only [resolveToken, hb2]

/-- Witness for C7: resolving `wQ` against an empty registry. -/
theorem from_string_parsing_error_witness :
    ¬(['w', 'Q'] : List Char).head? = some '.' ∧
      Position.from_string ['w', 'Q'] (fun _ => none) =
        .error (.ParsingError ['w', 'Q'] positionTag) :=
  ⟨by decide, from_string_parsing_error ['w', 'Q'] (fun _ => none) (by decide)
    (Or.inr ⟨(none, ⟨'w', 'Q', none⟩, none), rfl, rfl⟩)⟩

/-- C8: `from_string` never returns the `InvalidDirection` error: the
tokenizer can only put the three directional symbols (or nothing) into the
two optional groups, so the defensive branches are unreachable for every
input and every registry. -/
theorem from_string_never_invalid_direction (s : List Char) (board : Board) :
    isInvalidDirectionError (Position.from_string s board) = false := by
  unfold Position.from_string
  split_ifs with h
  · rfl
  · cases ht : tokenize s with
    | none => rfl
    | some t => exact resolveToken_not_invalid s board t (tokenize_wf s t ht)

/-- C10: the tokenizer matches the pattern as a substring: characters that
cannot start a match (not a color letter, not a directional symbol, not the
dot) may precede the token and are ignored, so an input with an embedded
token resolves like the input starting at that token. -/
theorem from_string_skips_leading_junk (u w : List Char) (board : Board)
    (p : Position)
    (hu : ∀ c ∈ u, colorChar c = false ∧ symChar c = false ∧ c ≠ '.')
    (hwdot : ¬w.head? = some '.')
    (hw : Position.from_string w board = .ok p) :
    Position.from_string (u ++ w) board = .ok p := by
  have htok : tokenize (u ++ w) = tokenize w :=
    tokenize_append_junk u w (fun c hc => ⟨(hu c hc).1, (hu c hc).2.1⟩)
  have hdot : ¬(u ++ w).head? = some '.' := by
    cases u with
    | nil => simpa using hwdot
    | cons c u2 =>
      simp only [List.cons_append, List.head?_cons, Option.some.injEq]
      exact (hu c (List.mem_cons_self c u2)).2.2
  unfold Position.from_string at hw ⊢
  rw [if_neg hdot, htok]
  rw [if_neg hwdot] at hw
  cases ht : tokenize w with
  | none =>
    rw [ht] at hw
    exact absurd hw (by simp)
  | some t =>
    rw [ht] at hw
    obtain ⟨pre, pc, suf⟩ := t
    have hw' : resolveToken w board (pre, pc, suf) = .ok p := hw
    show resolveToken (u ++ w) board (pre, pc, suf) = .ok p
    simp only [resolveToken] at hw' ⊢
    cases hb : board pc with
    | none =>
      simp only [hb] at hw'
      exact absurd hw' (by simp)
    | some pos =>
      simp only [hb] at hw' ⊢
      exact hw'

/-- Witness for C10: `xxwA1yy` resolves exactly like `wA1yy` (and hence like
`wA1`), with `wA1` placed at `(2,3)`. -/
theorem from_string_skips_leading_junk_witness :
    (∀ c ∈ (['x', 'x'] : List Char),
        colorChar c = false ∧ symChar c = false ∧ c ≠ '.') ∧
      ¬(['w', 'A', '1', 'y', 'y'] : List Char).head? = some '.' ∧
      Position.from_string ['w', 'A', '1', 'y', 'y']
          (fun q : Piece =>
            if q = (⟨'w', 'A', some '1'⟩ : Piece) then some (⟨2, 3⟩ : Position)
            else none) =
        .ok ⟨2, 3⟩ ∧
      Position.from_string (['x', 'x'] ++ ['w', 'A', '1', 'y', 'y'])
          (fun q : Piece =>
            if q = (⟨'w', 'A', some '1'⟩ : Piece) then some (⟨2, 3⟩ : Position)
            else none) =
        .ok ⟨2, 3⟩ :=
  ⟨by decide, by decide, rfl,
    from_string_skips_leading_junk ['x', 'x'] ['w', 'A', '1', 'y', 'y'] _
      ⟨2, 3⟩ (by decide) (by decide) rfl⟩
